import Mathlib

/-!
Verification of the branch- and time-versioned graph core of Infrahub
(`infrahub/core/branch.py`, `infrahub/core/query/diff.py`,
`backend/infrahub/core/attribute.py`), shallowly embedded in Lean 4.

Timestamps are modelled as natural numbers (the source's `Timestamp` is a
totally ordered instant; only comparison is used by the code under study).
An open interval end (`to = null` in the database) is `Option.none`.
-/

namespace Infrahub

/-- `RelationshipStatus` from `infrahub/core/constants.py`:
an edge is either ACTIVE or DELETED. -/
inductive RelStatus
  | active
  | deleted
deriving DecidableEq, Repr

/-- `DiffAction` from `infrahub/core/constants.py`. -/
inductive DiffAction
  | added
  | removed
  | updated
deriving DecidableEq, Repr

/-- Edge metadata carried on every non-schema edge of the graph:
`branch` (name), `from` (timestamp), `to` (timestamp or null = infinity)
and `status`.  (`from` is a Lean keyword, hence `fromT`.) -/
structure Edge where
  branch : String
  fromT : Nat
  toT : Option Nat
  status : RelStatus
deriving DecidableEq, Repr

/-- The fields of `Branch` (class `Branch` in `infrahub/core/branch.py`)
that the diff / merge / filter code reads. -/
structure Branch where
  name : String
  origin_branch : String := "main"
  branched_from : Nat
  is_default : Bool := false
  ephemeral_rebase : Bool := false
deriving DecidableEq, Repr

/-- `Branch.get_branches_and_times_to_query` (branch.py lines 102-121).
The Python function returns a dict; since in the non-default case the two
keys `default_branch` and `self.name` are distinct, an association list in
insertion order is a faithful rendering.  `default_branch` stands for
`config.SETTINGS.main.default_branch` and `at` for the (already resolved)
query time. -/
def Branch.get_branches_and_times_to_query (b : Branch) (default_branch : String)
    (at_ : Nat) : List (String × Nat) :=
  if b.name = default_branch then
    [(default_branch, at_)]
  else
    -- If we are querying before the beginning of the branch
    -- the time for the main branch must be the time of the query
    let time_default_branch :=
      if b.ephemeral_rebase || at_ < b.branched_from then at_ else b.branched_from
    [(default_branch, time_default_branch), (b.name, at_)]

/-- Cypher semantics of `r.to >= $time` : NULL compared with anything is
not true, so a null `to` fails the comparison. -/
def toGE (o : Option Nat) (t : Nat) : Bool :=
  match o with
  | none => false
  | some v => t ≤ v

/-- Denotation, on one candidate edge, of the two clauses emitted per
`(branch, time)` pair by `Branch.get_query_filter_path`
(branch.py lines 199-200):
`(r.branch = $branchN AND r.from <= $timeN AND r.to IS NULL)` OR
`(r.branch = $branchN AND r.from <= $timeN AND r.to >= $timeN)`. -/
def pathClauses (e : Edge) (br : String) (t : Nat) : Bool :=
  (e.branch == br && decide (e.fromT ≤ t) && e.toT == none)
    || (e.branch == br && decide (e.fromT ≤ t) && toGE e.toT t)

/-- The full filter produced by `Branch.get_query_filter_path`
(branch.py lines 186-204): the OR, over every `(branch, time)` pair of
`get_branches_and_times_to_query`, of the two clauses. -/
def get_query_filter_path_pred (branches_times : List (String × Nat)) (e : Edge) : Bool :=
  branches_times.any fun p => pathClauses e p.1 p.2

/-- Denotation of the per-pair filter emitted for one edge alias by
`Branch.get_query_filter_relationships` (branch.py lines 172-177); the
clauses are textually identical to those of `get_query_filter_path`. -/
def relClauses (e : Edge) (br : String) (t : Nat) : Bool :=
  (e.branch == br && decide (e.fromT ≤ t) && e.toT == none)
    || (e.branch == br && decide (e.fromT ≤ t) && toGE e.toT t)

/-- The filter produced for a single edge alias by
`Branch.get_query_filter_relationships` (branch.py lines 150-184): OR
over the `(branch, time)` pairs of the two clauses. -/
def get_query_filter_relationships_pred (branches_times : List (String × Nat))
    (e : Edge) : Bool :=
  branches_times.any fun p => relClauses e p.1 p.2

/-- Denotation of one `(branch, time)` disjunct built by
`Branch.get_query_filter_branch_to_node` (branch.py lines 136-139):
`(b.name = $branchN AND ((r.from <= $timeN AND r.to IS NULL) OR
(r.from <= $timeN AND r.to >= $timeN)))`.  The branch name of an
`IS_PART_OF` edge is carried by the `Branch` vertex it points to, so the
test on `b.name` is a test on the edge's branch. -/
def branchToNodeClause (e : Edge) (br : String) (t : Nat) : Bool :=
  e.branch == br
    && ((decide (e.fromT ≤ t) && e.toT == none)
          || (decide (e.fromT ≤ t) && toGE e.toT t))

/-- The full filter produced by `Branch.get_query_filter_branch_to_node`
(branch.py lines 123-148): OR over the `(branch, time)` pairs. -/
def get_query_filter_branch_to_node_pred (branches_times : List (String × Nat))
    (e : Edge) : Bool :=
  branches_times.any fun p => branchToNodeClause e p.1 p.2

/-- Visibility predicate written from the spec's words (§3 / §4.2):
an edge is visible at the branch-query set iff some pair `(br, t_br)` has
the edge's branch equal to `br`, `from ≤ t_br`, `to` null or `≥ t_br`,
AND `status = ACTIVE`. -/
def visible_spec (branches_times : List (String × Nat)) (e : Edge) : Bool :=
  branches_times.any fun p =>
    e.branch == p.1 && decide (e.fromT ≤ p.2)
      && (e.toT == none || toGE e.toT p.2)
      && e.status == RelStatus.active

/-- The same predicate with the status conjunct dropped: branch matches,
`from ≤ t_br`, `to` null or `≥ t_br` for some pair. -/
def visibleNoStatus (branches_times : List (String × Nat)) (e : Edge) : Bool :=
  branches_times.any fun p =>
    e.branch == p.1 && decide (e.fromT ≤ p.2) && (e.toT == none || toGE e.toT p.2)

/-- A modified path: a 4-tuple of strings, e.g.
`("node", node_uuid, attr_name, prop_kind)`. -/
abbrev ModPath := String × String × String × String

/-- The part of `NodeAttributeDiffElement` read by `get_modified_paths`:
the attribute name (dict key) and the keys of its `properties` dict. -/
structure NodeAttributeDiffElement where
  name : String
  properties : List String
deriving DecidableEq, Repr

/-- The part of `NodeDiffElement` read by `get_modified_paths`: the node
uuid (dict key) and its attributes. -/
structure NodeDiffElement where
  id : String
  attributes : List NodeAttributeDiffElement
deriving DecidableEq, Repr

/-- The part of `RelationshipDiffElement` read by `get_modified_paths`:
the relationship uuid (inner dict key) and the keys of its `properties`
dict. -/
structure RelationshipDiffElement where
  id : String
  properties : List String
deriving DecidableEq, Repr

/-- The state of a `Diff` object (branch.py 505-603) needed by
`get_modified_paths` / `get_conflicts`: the branch it was built for, the
`branch_only` flag, and the memoized results of `get_nodes()` (branch →
nodes) and `get_relationships()` (branch → rel name → rels), as
association lists in dict insertion order. -/
structure Diff where
  branch_name : String
  branch_only : Bool
  nodes : List (String × List NodeDiffElement)
  rels : List (String × List (String × List RelationshipDiffElement))
deriving DecidableEq, Repr

/-- `paths[branch_name].add(path)` on a `defaultdict(set)` rendered as an
association list in key insertion order. -/
def addPath (m : List (String × Finset ModPath)) (bn : String) (p : ModPath) :
    List (String × Finset ModPath) :=
  match m with
  | [] => [(bn, {p})]
  | (k, s) :: rest =>
    if k = bn then (k, insert p s) :: rest else (k, s) :: addPath rest bn p

/-- The node paths contributed by one branch's node dict
(branch.py 587-590): `("node", node_id, attr_name, prop_type)` for every
property of every attribute of every node. -/
def nodePaths (data : List NodeDiffElement) : List ModPath :=
  data.flatMap fun node =>
    node.attributes.flatMap fun attr =>
      attr.properties.map fun prop_type => ("node", node.id, attr.name, prop_type)

/-- The relationship paths contributed by one branch's rels dict
(branch.py 596-599): `("relationships", rel_name, rel_id, prop_type)`. -/
def relPaths (data : List (String × List RelationshipDiffElement)) : List ModPath :=
  data.flatMap fun rg =>
    rg.2.flatMap fun rel =>
      rel.properties.map fun prop_type => ("relationships", rg.1, rel.id, prop_type)

/-- One outer loop of `get_modified_paths`: for each `(branch, paths)`
group, skip it when `branch_only` and the branch differs from the diff's
branch (the `continue`), else add every path under that branch key. -/
def foldPathGroups (skip : String → Bool) (groups : List (String × List ModPath))
    (m : List (String × Finset ModPath)) : List (String × Finset ModPath) :=
  groups.foldl
    (fun m g =>
      if skip g.1 then m
      else g.2.foldl (fun m p => addPath m g.1 p) m)
    m

/-- The `continue` guard of both loops of `get_modified_paths`
(branch.py 584-585 and 593-594). -/
def Diff.skipBranch (d : Diff) (bn : String) : Bool :=
  d.branch_only && bn != d.branch_name

/-- `Diff.get_modified_paths` (branch.py 578-603): the per-branch sets of
modified paths, nodes loop first, then relationships loop, into one
`defaultdict(set)`. -/
def Diff.get_modified_paths (d : Diff) : List (String × Finset ModPath) :=
  foldPathGroups d.skipBranch (d.rels.map fun bd => (bd.1, relPaths bd.2))
    (foldPathGroups d.skipBranch (d.nodes.map fun bd => (bd.1, nodePaths bd.2)) [])

/-- `Diff.get_conflicts` (branch.py 561-576): empty when `branch_only`;
empty when fewer than two branches have modified paths; otherwise the
intersection of the path sets of the first two branches. -/
def Diff.get_conflicts (d : Diff) : Finset ModPath :=
  if d.branch_only then ∅
  else
    match d.get_modified_paths with
    | p0 :: p1 :: _ => p0.2 ∩ p1.2
    | _ => ∅

/-- First-match lookup in the modified-paths association list; `∅` when
the branch has no entry. -/
def lookupPaths (m : List (String × Finset ModPath)) (bn : String) : Finset ModPath :=
  match m with
  | [] => ∅
  | (k, s) :: rest => if k = bn then s else lookupPaths rest bn

/-- The result of `repo.run_checks()` for one repository: the boolean
outcome and the error messages. -/
structure RepoCheck where
  result : Bool
  errors : List String
deriving DecidableEq, Repr

/-- `"/".join(conflict)` for a 4-tuple path. -/
def joinPath (p : ModPath) : String :=
  p.1 ++ "/" ++ p.2.1 ++ "/" ++ p.2.2.1 ++ "/" ++ p.2.2.2

/-- `Branch.validate` (branch.py 217-247): start passing; a non-empty
conflict set flips `passed` to false and appends one message per
conflict; then every failing repository check flips `passed` to false and
appends its errors.  `conflicts` stands for `self.diff().get_conflicts()`
and `repo_checks` for the `run_checks()` results of the branch's
repositories. -/
def Branch.validate (conflicts : List ModPath) (repo_checks : List RepoCheck) :
    Bool × List String :=
  let init : Bool × List String :=
    if conflicts = [] then (true, [])
    else (false, conflicts.map fun c => "Conflict detected at " ++ joinPath c)
  repo_checks.foldl
    (fun acc rc => if rc.result then acc else (false, acc.2 ++ rc.errors)) init

/-- The precondition phase of `Branch.merge` (branch.py 252-260): run
`validate`, discard its messages, raise a plain exception when it did not
pass; then refuse to merge the default branch into itself.  Only on
success does the source proceed to the graph writes, modelled here by the
`writes` the write phase would emit; an error therefore performs none of
them. -/
def Branch.merge {W : Type} (b : Branch) (default_branch : String)
    (conflicts : List ModPath) (repo_checks : List RepoCheck) (writes : List W) :
    Except String (List W) :=
  let passed := (Branch.validate conflicts repo_checks).1
  if passed = false then
    Except.error ("Unable to merge the branch \x27" ++ b.name ++ "\x27, validation failed")
  else if b.name = default_branch then
    Except.error ("Unable to merge the branch \x27" ++ b.name ++ "\x27 into itself")
  else Except.ok writes

/-- The two `ValueError`s of `Diff.__init__` / `DiffQuery.__init__`. -/
inductive DiffInitError
  | diff_from_mandatory
  | diff_to_before_diff_from
deriving DecidableEq, Repr

/-- Resolution of `diff_from` / `diff_to` in `Diff.__init__`
(branch.py 510-533): an explicit `diff_from` wins; else a non-default
branch falls back to its `branched_from`; else error.  `diff_to`
defaults to the current time `now`, and must not be earlier than
`diff_from`. -/
def Diff.init_times (branch : Branch) (diff_from diff_to : Option Nat) (now : Nat) :
    Except DiffInitError (Nat × Nat) :=
  match diff_from with
  | some d =>
    let dt := diff_to.getD now
    if dt < d then Except.error DiffInitError.diff_to_before_diff_from
    else Except.ok (d, dt)
  | none =>
    if branch.is_default = false then
      let d := branch.branched_from
      let dt := diff_to.getD now
      if dt < d then Except.error DiffInitError.diff_to_before_diff_from
      else Except.ok (d, dt)
    else Except.error DiffInitError.diff_from_mandatory

/-- `DiffQuery.__init__` (query/diff.py 16-37): identical `diff_from` /
`diff_to` resolution, plus the computation of `branch_names` (the branch
alone when default, else the branch and its origin branch). -/
def DiffQuery.init (branch : Branch) (diff_from diff_to : Option Nat) (now : Nat) :
    Except DiffInitError ((Nat × Nat) × List String) :=
  match diff_from with
  | some d =>
    let dt := diff_to.getD now
    if dt < d then Except.error DiffInitError.diff_to_before_diff_from
    else
      Except.ok ((d, dt),
        if branch.is_default then [branch.name] else [branch.name, branch.origin_branch])
  | none =>
    if branch.is_default = false then
      let d := branch.branched_from
      let dt := diff_to.getD now
      if dt < d then Except.error DiffInitError.diff_to_before_diff_from
      else Except.ok ((d, dt), [branch.name, branch.origin_branch])
    else Except.error DiffInitError.diff_from_mandatory

/-- Classification of one attribute-level change in
`Diff._calculate_diff_nodes` (branch.py 713-732), for a property edge
that passed the `attr_to < diff_to` skip; returns the action and the
`changed_at` value stored on the `NodeAttributeDiffElement`. -/
def classify_attribute (node_action : DiffAction) (attr_from : Nat)
    (branch_status : RelStatus) (diff_from : Nat) : DiffAction × Option Nat :=
  if node_action = DiffAction.added ∧ diff_from ≤ attr_from
      ∧ branch_status = RelStatus.active then
    (DiffAction.added, some attr_from)
  else if diff_from ≤ attr_from ∧ branch_status = RelStatus.deleted then
    (DiffAction.removed, some attr_from)
  else
    (DiffAction.updated, none)

/-- One row returned by `DiffRelationshipQuery` with the fields its
`get_results` (query/diff.py 124-156) reads: the element ids of all the
returned items (the set used for the direction de-dup), the two endpoint
uuids, the relationship name (`rel.name`), the branch of the first
endpoint edge (`r1.branch`) and the result's `branch_score`.  The score
itself is not computed in this file; per the spec's glossary it prefers
the child branch over the parent. -/
structure RelQueryResult where
  element_ids : Finset Nat
  sn_uuid : String
  dn_uuid : String
  rel_name : String
  branch : String
  branch_score : Nat
deriving DecidableEq

/-- The first loop's `ids_set` de-dup (query/diff.py 135-140): drop any
result whose set of element ids equals that of an earlier kept result —
the same path traversed from the other direction. -/
def idsDedup (seen : List (Finset Nat)) : List RelQueryResult → List RelQueryResult
  | [] => []
  | r :: rest =>
    if r.element_ids ∈ seen then idsDedup seen rest
    else r :: idsDedup (r.element_ids :: seen) rest

/-- Lexicographic comparison of two character lists by code point —
Python's `<=` on strings. -/
def charListLe : List Char → List Char → Bool
  | [], _ => true
  | _ :: _, [] => false
  | a :: as, b :: bs =>
    if a.val < b.val then true
    else if b.val < a.val then false
    else charListLe as bs

/-- Python's `sorted([a, b])` on two strings. -/
def sortedPair (a b : String) : String × String :=
  if charListLe a.data b.data then (a, b) else (b, a)

/-- The grouping key of `DiffRelationshipQuery.get_results`
(query/diff.py 142-149):
`f"{branch_name}_{nodes[0]}__{nodes[1]}__{rel_name}"`, where `nodes` is
the sorted pair of endpoint uuids with their first 8 characters dropped
(`uuid[8:]`). -/
def dedupKey (r : RelQueryResult) : String :=
  let nodes := sortedPair (r.sn_uuid.drop 8) (r.dn_uuid.drop 8)
  r.branch ++ "_" ++ nodes.1 ++ "__" ++ nodes.2 ++ "__" ++ r.rel_name

/-- Keys of a `defaultdict` in first-touch order: keep the first
occurrence of each key. -/
def dedupFirst (seen : List String) : List String → List String
  | [] => []
  | k :: rest =>
    if k ∈ seen then dedupFirst seen rest else k :: dedupFirst (k :: seen) rest

/-- The first element of maximal `branch_score`, starting from `init`. -/
def foldMax (init : RelQueryResult) (l : List RelQueryResult) : RelQueryResult :=
  l.foldl (fun best x => if best.branch_score < x.branch_score then x else best) init

/-- `sorted(values, key=lambda i: i["branch_score"], reverse=True)[0]`
(query/diff.py 153-156): Python's sort is stable, so this is the first
element attaining the maximal branch score. -/
def pickFirstMax : List RelQueryResult → Option RelQueryResult
  | [] => none
  | r :: rest => some (foldMax r rest)

/-- `DiffRelationshipQuery.get_results` (query/diff.py 124-156): drop the
reverse-direction duplicates, group the survivors by `dedupKey` in
first-touch order, and yield per group the entry with the highest branch
score. -/
def DiffRelationshipQuery.get_results (results : List RelQueryResult) :
    List RelQueryResult :=
  let survivors := idsDedup [] results
  (dedupFirst [] (survivors.map dedupKey)).filterMap fun k =>
    pickFirstMax (survivors.filter fun r => dedupKey r == k)

/-- Python scalar values that can reach `BaseAttribute.to_db` /
`from_db`. -/
inductive PyVal
  | vnone
  | vstr (s : String)
  | vint (n : Int)
  | vbool (b : Bool)
deriving DecidableEq, Repr

/-- `BaseAttribute.serialize` (attribute.py): the identity on the base
class. -/
def BaseAttribute.serialize (v : PyVal) : PyVal := v

/-- `BaseAttribute.deserialize` (attribute.py): the identity on the base
class. -/
def BaseAttribute.deserialize (v : PyVal) : PyVal := v

/-- `BaseAttribute.to_db` (attribute.py 201-205): `None` is stored as the
sentinel string `"NULL"`; anything else is serialized. -/
def BaseAttribute.to_db (v : PyVal) : PyVal :=
  match v with
  | PyVal.vnone => PyVal.vstr "NULL"
  | v => BaseAttribute.serialize v

/-- `BaseAttribute.from_db` (attribute.py 207-211): the sentinel string
`"NULL"` reads back as `None`; anything else is deserialized. -/
def BaseAttribute.from_db (v : PyVal) : PyVal :=
  if v = PyVal.vstr "NULL" then PyVal.vnone else BaseAttribute.deserialize v

/-- Pointwise form of the two path clauses: factoring the shared
`branch = br AND from <= t` conjunct. -/
theorem pathClauses_eq_factored (e : Edge) (br : String) (t : Nat) :
    pathClauses e br t
      = (e.branch == br && decide (e.fromT ≤ t) && (e.toT == none || toGE e.toT t)) := by
  cases h1 : (e.branch == br) <;> cases h2 : decide (e.fromT ≤ t) <;>
    simp [pathClauses, h1, h2]

/-- The relationship-alias clauses have the same pointwise denotation. -/
theorem relClauses_eq_factored (e : Edge) (br : String) (t : Nat) :
    relClauses e br t
      = (e.branch == br && decide (e.fromT ≤ t) && (e.toT == none || toGE e.toT t)) := by
  cases h1 : (e.branch == br) <;> cases h2 : decide (e.fromT ≤ t) <;>
    simp [relClauses, h1, h2]

/-- The `branch_to_node` disjunct has the same pointwise denotation. -/
theorem branchToNodeClause_eq_factored (e : Edge) (br : String) (t : Nat) :
    branchToNodeClause e br t
      = (e.branch == br && decide (e.fromT ≤ t) && (e.toT == none || toGE e.toT t)) := by
  cases h1 : (e.branch == br) <;> cases h2 : decide (e.fromT ≤ t) <;>
    simp [branchToNodeClause, h1, h2]

/-- C1 (amended): for every branch `B` and time `t`, the three filters
produced by `get_query_filter_path`, `get_query_filter_relationships`
(per edge alias) and `get_query_filter_branch_to_node` all select exactly
the edges having, for some pair `(br, t_br)` of the branch-query set of
`(B, t)`, branch `br`, `from ≤ t_br` and `to` null or `≥ t_br` — with no
condition on `status`. -/
theorem query_filters_select_visibleNoStatus (b : Branch) (default_branch : String)
    (t : Nat) (e : Edge) :
    get_query_filter_path_pred (b.get_branches_and_times_to_query default_branch t) e
        = visibleNoStatus (b.get_branches_and_times_to_query default_branch t) e
      ∧ get_query_filter_relationships_pred
            (b.get_branches_and_times_to_query default_branch t) e
          = visibleNoStatus (b.get_branches_and_times_to_query default_branch t) e
      ∧ get_query_filter_branch_to_node_pred
            (b.get_branches_and_times_to_query default_branch t) e
          = visibleNoStatus (b.get_branches_and_times_to_query default_branch t) e := by
  refine ⟨?_, ?_, ?_⟩ <;>
    · simp only [get_query_filter_path_pred, get_query_filter_relationships_pred,
        get_query_filter_branch_to_node_pred, visibleNoStatus]
      congr 1
      funext p
      simp only [pathClauses_eq_factored, relClauses_eq_factored,
        branchToNodeClause_eq_factored]

/-- C1 (counterexample): a DELETED edge on the default branch, open-ended
and starting at time 0, is selected by all three filter predicates for the
branch-query set of `(main, 5)`, yet the spec's visibility predicate
(which requires `status = ACTIVE`) excludes it.  The filters therefore do
not select exactly the spec-visible set. -/
theorem query_filters_ignore_status_counterexample :
    get_query_filter_path_pred
        ((Branch.mk "main" "main" 0 true false).get_branches_and_times_to_query "main" 5)
        (Edge.mk "main" 0 none RelStatus.deleted) = true
      ∧ get_query_filter_relationships_pred
          ((Branch.mk "main" "main" 0 true false).get_branches_and_times_to_query "main" 5)
          (Edge.mk "main" 0 none RelStatus.deleted) = true
      ∧ get_query_filter_branch_to_node_pred
          ((Branch.mk "main" "main" 0 true false).get_branches_and_times_to_query "main" 5)
          (Edge.mk "main" 0 none RelStatus.deleted) = true
      ∧ visible_spec
          ((Branch.mk "main" "main" 0 true false).get_branches_and_times_to_query "main" 5)
          (Edge.mk "main" 0 none RelStatus.deleted) = false := by
  decide

/-- C2: `get_branches_and_times_to_query(B, t)` returns `{default: t}`
when `B` is the default branch; otherwise exactly the two entries
`{default: t_parent, B: t}` with `t_parent = branched_from(B)`, except
that `t_parent` is replaced by `t` when `ephemeral_rebase` is set or
`t < branched_from(B)`. -/
theorem get_branches_and_times_to_query_spec (b : Branch) (d : String) (t : Nat) :
    (b.name = d → b.get_branches_and_times_to_query d t = [(d, t)])
      ∧ (b.name ≠ d → (b.ephemeral_rebase = true ∨ t < b.branched_from) →
          b.get_branches_and_times_to_query d t = [(d, t), (b.name, t)])
      ∧ (b.name ≠ d → b.ephemeral_rebase = false → b.branched_from ≤ t →
          b.get_branches_and_times_to_query d t = [(d, b.branched_from), (b.name, t)]) := by
  refine ⟨fun h => ?_, fun h hrb => ?_, fun h hrb hle => ?_⟩
  · simp [Branch.get_branches_and_times_to_query, h]
  · rcases hrb with hrb | hrb <;>
      simp [Branch.get_branches_and_times_to_query, h, hrb]
  · have hnotlt : ¬ t < b.branched_from := not_lt.mpr hle
    simp [Branch.get_branches_and_times_to_query, h, hrb, hnotlt]

/-- Witness for C2: evaluates the three cases on concrete branches. -/
theorem get_branches_and_times_to_query_spec_witness :
    ((Branch.mk "main" "main" 0 true false).get_branches_and_times_to_query "main" 7
        = [("main", 7)])
      ∧ ((Branch.mk "b2" "main" 10 false false).get_branches_and_times_to_query "main" 4
          = [("main", 4), ("b2", 4)])
      ∧ ((Branch.mk "b2" "main" 10 false false).get_branches_and_times_to_query "main" 25
          = [("main", 10), ("b2", 25)]) :=
  ⟨(get_branches_and_times_to_query_spec (Branch.mk "main" "main" 0 true false) "main" 7).1
      (by decide),
    (get_branches_and_times_to_query_spec (Branch.mk "b2" "main" 10 false false) "main" 4).2.1
      (by decide) (Or.inr (by decide)),
    (get_branches_and_times_to_query_spec (Branch.mk "b2" "main" 10 false false) "main" 25).2.2
      (by decide) (by decide) (by decide)⟩

/-- C10: for the scalar serialization of `BaseAttribute`,
`from_db (to_db v) = v` for every `v` other than `None` and other than
the literal string `"NULL"`; `to_db None` is the sentinel `"NULL"`,
`from_db "NULL"` is `None`, and a stored value equal to the literal
string `"NULL"` is indistinguishable from an absent value after a round
trip. -/
theorem to_db_from_db_round_trip :
    (∀ v : PyVal, v ≠ PyVal.vnone → v ≠ PyVal.vstr "NULL" →
        BaseAttribute.from_db (BaseAttribute.to_db v) = v)
      ∧ BaseAttribute.to_db PyVal.vnone = PyVal.vstr "NULL"
      ∧ BaseAttribute.from_db (PyVal.vstr "NULL") = PyVal.vnone
      ∧ BaseAttribute.from_db (BaseAttribute.to_db (PyVal.vstr "NULL"))
          = BaseAttribute.from_db (BaseAttribute.to_db PyVal.vnone) := by
  refine ⟨fun v h1 h2 => ?_, rfl, by simp [BaseAttribute.from_db], rfl⟩
  cases v with
  | vnone => exact absurd rfl h1
  | vstr s =>
    simp_all [BaseAttribute.to_db, BaseAttribute.from_db, BaseAttribute.serialize,
      BaseAttribute.deserialize]
  | vint n =>
    simp [BaseAttribute.to_db, BaseAttribute.from_db, BaseAttribute.serialize,
      BaseAttribute.deserialize]
  | vbool x =>
    simp [BaseAttribute.to_db, BaseAttribute.from_db, BaseAttribute.serialize,
      BaseAttribute.deserialize]

/-- Witness for C10: the round trip at the concrete value 5. -/
theorem to_db_from_db_round_trip_witness :
    BaseAttribute.from_db (BaseAttribute.to_db (PyVal.vint 5)) = PyVal.vint 5 :=
  to_db_from_db_round_trip.1 (PyVal.vint 5) (by decide) (by decide)

/-- C7: the action assigned to an attribute-level change is ADDED when
the owning node's action is ADDED, the edge's `from ≥ diff_from` and the
status is ACTIVE; REMOVED when `from ≥ diff_from` and the status is
DELETED; UPDATED otherwise, with `changed_at` left unset. -/
theorem classify_attribute_spec (na : DiffAction) (af : Nat) (st : RelStatus)
    (df : Nat) :
    (na = DiffAction.added → df ≤ af → st = RelStatus.active →
        classify_attribute na af st df = (DiffAction.added, some af))
      ∧ (df ≤ af → st = RelStatus.deleted →
          classify_attribute na af st df = (DiffAction.removed, some af))
      ∧ (¬(na = DiffAction.added ∧ df ≤ af ∧ st = RelStatus.active) →
            ¬(df ≤ af ∧ st = RelStatus.deleted) →
          classify_attribute na af st df = (DiffAction.updated, none)) := by
  refine ⟨fun h1 h2 h3 => ?_, fun h1 h2 => ?_, fun h1 h2 => ?_⟩
  · simp [classify_attribute, h1, h2, h3]
  · have hne : ¬(na = DiffAction.added ∧ df ≤ af ∧ st = RelStatus.active) := by
      rintro ⟨-, -, hact⟩
      rw [h2] at hact
      exact RelStatus.noConfusion hact
    simp [classify_attribute, hne, h1, h2]
  · simp [classify_attribute, h1, h2]

/-- Witness for C7: the three cases at concrete inputs. -/
theorem classify_attribute_spec_witness :
    classify_attribute DiffAction.added 7 RelStatus.active 5
        = (DiffAction.added, some 7)
      ∧ classify_attribute DiffAction.updated 7 RelStatus.deleted 5
          = (DiffAction.removed, some 7)
      ∧ classify_attribute DiffAction.added 3 RelStatus.active 5
          = (DiffAction.updated, none) :=
  ⟨(classify_attribute_spec DiffAction.added 7 RelStatus.active 5).1
      rfl (by decide) rfl,
    (classify_attribute_spec DiffAction.updated 7 RelStatus.deleted 5).2.1
      (by decide) rfl,
    (classify_attribute_spec DiffAction.added 3 RelStatus.active 5).2.2
      (by decide) (by decide)⟩

/-- C8: constructing a `Diff` or a `DiffQuery` fails when the branch is
the default one and no `diff_from` is supplied, and fails when the
resolved `diff_to` is earlier than the resolved `diff_from`; a
non-default branch with no `diff_from` defaults it to `branched_from`,
and no error is raised when `diff_from ≤ diff_to`. -/
theorem diff_init_constraints (b : Branch) (dfrom dto : Option Nat) (now : Nat) :
    (b.is_default = true → dfrom = none →
        Diff.init_times b dfrom dto now = Except.error DiffInitError.diff_from_mandatory
          ∧ DiffQuery.init b dfrom dto now
              = Except.error DiffInitError.diff_from_mandatory)
      ∧ (∀ d, dfrom = some d → dto.getD now < d →
          Diff.init_times b dfrom dto now
              = Except.error DiffInitError.diff_to_before_diff_from
            ∧ DiffQuery.init b dfrom dto now
                = Except.error DiffInitError.diff_to_before_diff_from)
      ∧ (b.is_default = false → dfrom = none → dto.getD now < b.branched_from →
          Diff.init_times b dfrom dto now
              = Except.error DiffInitError.diff_to_before_diff_from
            ∧ DiffQuery.init b dfrom dto now
                = Except.error DiffInitError.diff_to_before_diff_from)
      ∧ (∀ d, dfrom = some d → d ≤ dto.getD now →
          Diff.init_times b dfrom dto now = Except.ok (d, dto.getD now)
            ∧ DiffQuery.init b dfrom dto now
                = Except.ok ((d, dto.getD now),
                    if b.is_default then [b.name] else [b.name, b.origin_branch]))
      ∧ (b.is_default = false → dfrom = none → b.branched_from ≤ dto.getD now →
          Diff.init_times b dfrom dto now = Except.ok (b.branched_from, dto.getD now)
            ∧ DiffQuery.init b dfrom dto now
                = Except.ok ((b.branched_from, dto.getD now),
                    [b.name, b.origin_branch])) := by
  refine ⟨fun h1 h2 => ?_, fun d h1 h2 => ?_, fun h1 h2 h3 => ?_,
    fun d h1 h2 => ?_, fun h1 h2 h3 => ?_⟩
  · constructor <;> simp [Diff.init_times, DiffQuery.init, h1, h2]
  · constructor <;> simp [Diff.init_times, DiffQuery.init, h1, h2]
  · constructor <;> simp [Diff.init_times, DiffQuery.init, h1, h2, h3]
  · have hnl : ¬ dto.getD now < d := not_lt.mpr h2
    constructor <;> simp [Diff.init_times, DiffQuery.init, h1, hnl]
  · have hnl : ¬ dto.getD now < b.branched_from := not_lt.mpr h3
    constructor <;> simp [Diff.init_times, DiffQuery.init, h1, h2, hnl]

/-- Witness for C8: the five cases at concrete inputs (a default branch
`main` and a branch `b2` with `branched_from = 10`). -/
theorem diff_init_constraints_witness :
    Diff.init_times (Branch.mk "main" "main" 0 true false) none none 20
        = Except.error DiffInitError.diff_from_mandatory
      ∧ Diff.init_times (Branch.mk "b2" "main" 10 false false) (some 8) (some 3) 20
          = Except.error DiffInitError.diff_to_before_diff_from
      ∧ Diff.init_times (Branch.mk "b2" "main" 10 false false) none (some 3) 20
          = Except.error DiffInitError.diff_to_before_diff_from
      ∧ Diff.init_times (Branch.mk "b2" "main" 10 false false) (some 8) none 20
          = Except.ok (8, 20)
      ∧ DiffQuery.init (Branch.mk "b2" "main" 10 false false) none none 20
          = Except.ok ((10, 20), ["b2", "main"]) :=
  ⟨((diff_init_constraints (Branch.mk "main" "main" 0 true false) none none 20).1
      rfl rfl).1,
    ((diff_init_constraints (Branch.mk "b2" "main" 10 false false) (some 8) (some 3) 20).2.1
      8 rfl (by decide)).1,
    ((diff_init_constraints (Branch.mk "b2" "main" 10 false false) none (some 3) 20).2.2.1
      rfl rfl (by decide)).1,
    ((diff_init_constraints (Branch.mk "b2" "main" 10 false false) (some 8) none 20).2.2.2.1
      8 rfl (by decide)).1,
    ((diff_init_constraints (Branch.mk "b2" "main" 10 false false) none none 20).2.2.2.2
      rfl rfl (by decide)).2⟩

/-- The repository-check fold of `Branch.validate` never turns a failed
state back into a passing one. -/
theorem validate_foldl_stays_false (rcs : List RepoCheck) (msgs : List String) :
    (rcs.foldl (fun acc rc => if rc.result then acc else (false, acc.2 ++ rc.errors))
        ((false, msgs) : Bool × List String)).1 = false := by
  induction rcs generalizing msgs with
  | nil => rfl
  | cons rc rest ih =>
    cases h : rc.result <;> simp [h, ih]

/-- A non-empty conflict set makes `Branch.validate` fail. -/
theorem validate_fails_on_conflicts (conflicts : List ModPath)
    (rcs : List RepoCheck) (hc : conflicts ≠ []) :
    (Branch.validate conflicts rcs).1 = false := by
  unfold Branch.validate
  simp only [hc, if_false]
  exact validate_foldl_stays_false rcs _

/-- C3 (amended): `merge` raises before any graph write whenever
`validate` does not pass (in particular whenever the conflict set is
non-empty) or the branch is the default branch; the error surfaced on a
validation failure is the generic message naming the branch —
`validate`'s messages, including the conflict paths, are discarded, so
the error does not carry the offending paths (it is the same whatever
the conflicting paths are). -/
theorem merge_precheck_spec {W : Type} (b : Branch) (dflt : String)
    (conflicts : List ModPath) (rcs : List RepoCheck) (writes : List W) :
    ((Branch.validate conflicts rcs).1 = false →
        Branch.merge b dflt conflicts rcs writes
          = Except.error
              ("Unable to merge the branch \x27" ++ b.name ++ "\x27, validation failed"))
      ∧ (conflicts ≠ [] →
          Branch.merge b dflt conflicts rcs writes
            = Except.error
                ("Unable to merge the branch \x27" ++ b.name ++ "\x27, validation failed"))
      ∧ ((Branch.validate conflicts rcs).1 = true → b.name = dflt →
          Branch.merge b dflt conflicts rcs writes
            = Except.error
                ("Unable to merge the branch \x27" ++ b.name ++ "\x27 into itself"))
      ∧ (∀ conflicts2, conflicts ≠ [] → conflicts2 ≠ [] →
          Branch.merge b dflt conflicts rcs writes
            = Branch.merge b dflt conflicts2 rcs writes)
      ∧ (∀ w, Branch.merge b dflt conflicts rcs writes = Except.ok w → w = writes) := by
  refine ⟨fun h => ?_, fun h => ?_, fun h1 h2 => ?_, fun c2 h1 h2 => ?_, fun w h => ?_⟩
  · simp [Branch.merge, h]
  · simp [Branch.merge, validate_fails_on_conflicts conflicts rcs h]
  · simp [Branch.merge, h1, h2]
  · simp [Branch.merge, validate_fails_on_conflicts conflicts rcs h1,
      validate_fails_on_conflicts c2 rcs h2]
  · unfold Branch.merge at h
    by_cases h1 : (Branch.validate conflicts rcs).1 = false
    · simp [h1] at h
    · by_cases h2 : b.name = dflt <;> simp [h1, h2] at h
      exact h.symm

/-- Witness for C3 (amended): a branch with one conflict fails with the
generic message, merging `main` into itself fails, and a clean merge
returns its writes. -/
theorem merge_precheck_spec_witness :
    Branch.merge (Branch.mk "b2" "main" 10 false false) "main"
        [("node", "aaa", "name", "HAS_VALUE")] [] (["w1"] : List String)
        = Except.error "Unable to merge the branch \x27b2\x27, validation failed"
      ∧ Branch.merge (Branch.mk "main" "main" 0 true false) "main" [] [] (["w1"] : List String)
          = Except.error "Unable to merge the branch \x27main\x27 into itself" :=
  ⟨(merge_precheck_spec (Branch.mk "b2" "main" 10 false false) "main"
        [("node", "aaa", "name", "HAS_VALUE")] [] ["w1"]).2.1 (by decide),
    (merge_precheck_spec (Branch.mk "main" "main" 0 true false) "main" [] [] ["w1"]).2.2.1
      rfl rfl⟩

/-- C3 (counterexample): the error surfaced when merging with a
non-empty conflict set is the fixed generic message; two different
conflicting paths produce literally the same error value, so the error
cannot carry the offending modified paths. -/
theorem merge_conflict_error_counterexample :
    Branch.merge (Branch.mk "b2" "main" 10 false false) "main"
        [("node", "aaa", "name", "HAS_VALUE")] [] (["w1"] : List String)
        = Except.error "Unable to merge the branch \x27b2\x27, validation failed"
      ∧ Branch.merge (Branch.mk "b2" "main" 10 false false) "main"
          [("node", "bbb", "owner", "HAS_OWNER")] [] (["w1"] : List String)
          = Branch.merge (Branch.mk "b2" "main" 10 false false) "main"
              [("node", "aaa", "name", "HAS_VALUE")] [] (["w1"] : List String)
      ∧ (("node", "aaa", "name", "HAS_VALUE") : ModPath)
          ≠ ("node", "bbb", "owner", "HAS_OWNER") := by
  refine ⟨rfl, rfl, by decide⟩

/-- C4: when the diff is not `branch_only` and its modified-path map has
exactly two entries (one for `B` and one for the parent, in either
order), `get_conflicts` is precisely the set intersection of the two
path sets, and that intersection is symmetric. -/
theorem get_conflicts_two_branches (d : Diff) (b1 b2 : String)
    (s1 s2 : Finset ModPath) (hbo : d.branch_only = false)
    (hmp : d.get_modified_paths = [(b1, s1), (b2, s2)]) :
    d.get_conflicts = s1 ∩ s2 ∧ s1 ∩ s2 = s2 ∩ s1 :=
  ⟨by simp [Diff.get_conflicts, hbo, hmp], Finset.inter_comm s1 s2⟩

/-- Witness for C4: a concrete diff whose `b2` and `main` entries share
the path `("node", "n1", "name", "HAS_VALUE")`. -/
theorem get_conflicts_two_branches_witness :
    (Diff.mk "b2" false
        [("b2", [NodeDiffElement.mk "n1"
            [NodeAttributeDiffElement.mk "name" ["HAS_VALUE"]]]),
          ("main", [NodeDiffElement.mk "n1"
            [NodeAttributeDiffElement.mk "name" ["HAS_VALUE", "IS_VISIBLE"]]])]
        []).get_conflicts
        = ({("node", "n1", "name", "HAS_VALUE")} : Finset ModPath)
          ∩ {("node", "n1", "name", "HAS_VALUE"), ("node", "n1", "name", "IS_VISIBLE")} :=
  (get_conflicts_two_branches
      (Diff.mk "b2" false
        [("b2", [NodeDiffElement.mk "n1"
            [NodeAttributeDiffElement.mk "name" ["HAS_VALUE"]]]),
          ("main", [NodeDiffElement.mk "n1"
            [NodeAttributeDiffElement.mk "name" ["HAS_VALUE", "IS_VISIBLE"]]])]
        [])
      "b2" "main" {("node", "n1", "name", "HAS_VALUE")}
      {("node", "n1", "name", "HAS_VALUE"), ("node", "n1", "name", "IS_VISIBLE")}
      rfl (by decide)).1

/-- Every key of `addPath m bn p` is `bn` or an existing key of `m`. -/
theorem addPath_keys (m : List (String × Finset ModPath)) (bn : String) (p : ModPath) :
    ∀ k ∈ (addPath m bn p).map Prod.fst, k = bn ∨ k ∈ m.map Prod.fst := by
  induction m with
  | nil => simp [addPath]
  | cons hd tl ih =>
    by_cases h : hd.1 = bn
    · intro k hk
      rw [show addPath (hd :: tl) bn p = (hd.1, insert p hd.2) :: tl by
        simp [addPath, h]] at hk
      simp only [List.map_cons, List.mem_cons] at hk ⊢
      rcases hk with hk | hk
      · exact Or.inl (hk.trans h)
      · exact Or.inr (Or.inr hk)
    · intro k hk
      rw [show addPath (hd :: tl) bn p = hd :: addPath tl bn p by
        simp [addPath, h]] at hk
      simp only [List.map_cons, List.mem_cons] at hk ⊢
      rcases hk with hk | hk
      · exact Or.inr (Or.inl hk)
      · rcases ih k hk with hk2 | hk2
        · exact Or.inl hk2
        · exact Or.inr (Or.inr hk2)

/-- Every key produced by folding `addPath` over a list of paths under a
single branch name is that name or an existing key. -/
theorem foldl_addPath_keys (ps : List ModPath) (bn : String)
    (m : List (String × Finset ModPath)) :
    ∀ k ∈ ((ps.foldl (fun m p => addPath m bn p) m).map Prod.fst),
      k = bn ∨ k ∈ m.map Prod.fst := by
  induction ps generalizing m with
  | nil => intro k hk; exact Or.inr hk
  | cons p rest ih =>
    intro k hk
    rcases ih (addPath m bn p) k hk with hk2 | hk2
    · exact Or.inl hk2
    · exact addPath_keys m bn p k hk2

/-- Every key produced by `foldPathGroups` comes from a non-skipped
group or from the initial map. -/
theorem foldPathGroups_keys (skip : String → Bool)
    (groups : List (String × List ModPath)) (m : List (String × Finset ModPath)) :
    ∀ k ∈ (foldPathGroups skip groups m).map Prod.fst,
      (∃ g ∈ groups, g.1 = k ∧ skip k = false) ∨ k ∈ m.map Prod.fst := by
  induction groups generalizing m with
  | nil => intro k hk; exact Or.inr hk
  | cons g rest ih =>
    intro k hk
    have hstep : foldPathGroups skip (g :: rest) m
        = foldPathGroups skip rest
            (if skip g.1 then m else g.2.foldl (fun m p => addPath m g.1 p) m) := rfl
    rw [hstep] at hk
    rcases ih _ k hk with hk2 | hk2
    · rcases hk2 with ⟨g2, hg2, hk2⟩
      exact Or.inl ⟨g2, List.mem_cons_of_mem g hg2, hk2⟩
    · by_cases hs : skip g.1
      · rw [if_pos hs] at hk2
        exact Or.inr hk2
      · rw [if_neg hs] at hk2
        rcases foldl_addPath_keys g.2 g.1 m k hk2 with hk3 | hk3
        · subst hk3
          exact Or.inl ⟨g, List.mem_cons_self g rest, rfl, by simpa using hs⟩
        · exact Or.inr hk3

/-- C6: on a diff constructed with `branch_only = true`, every entry of
the modified-path map is for the diff's own branch (the parent is never
mentioned), and `get_conflicts` is empty. -/
theorem branch_only_diff_spec (d : Diff) (hbo : d.branch_only = true) :
    (∀ e ∈ d.get_modified_paths, e.1 = d.branch_name)
      ∧ d.get_conflicts = ∅ := by
  constructor
  · intro e he
    have hk : e.1 ∈ d.get_modified_paths.map Prod.fst := List.mem_map_of_mem Prod.fst he
    unfold Diff.get_modified_paths at hk
    rcases foldPathGroups_keys _ _ _ e.1 hk with hk2 | hk2
    · rcases hk2 with ⟨-, -, -, hsk⟩
      simp only [Diff.skipBranch, hbo, Bool.true_and, bne_eq_false_iff_eq] at hsk
      exact hsk
    · rcases foldPathGroups_keys _ _ _ e.1 hk2 with hk3 | hk3
      · rcases hk3 with ⟨-, -, -, hsk⟩
        simp only [Diff.skipBranch, hbo, Bool.true_and, bne_eq_false_iff_eq] at hsk
        exact hsk
      · simp at hk3
  · simp [Diff.get_conflicts, hbo]

/-- Witness for C6: a `branch_only` diff whose underlying change sets
mention both `b2` and `main`; only `b2` survives in the modified-path
map and the conflict set is empty. -/
theorem branch_only_diff_spec_witness :
    (∀ e ∈ (Diff.mk "b2" true
        [("b2", [NodeDiffElement.mk "n1"
            [NodeAttributeDiffElement.mk "name" ["HAS_VALUE"]]]),
          ("main", [NodeDiffElement.mk "n1"
            [NodeAttributeDiffElement.mk "name" ["HAS_VALUE"]]])]
        []).get_modified_paths, e.1 = "b2")
      ∧ (Diff.mk "b2" true
          [("b2", [NodeDiffElement.mk "n1"
              [NodeAttributeDiffElement.mk "name" ["HAS_VALUE"]]]),
            ("main", [NodeDiffElement.mk "n1"
              [NodeAttributeDiffElement.mk "name" ["HAS_VALUE"]]])]
          []).get_conflicts = ∅ :=
  branch_only_diff_spec
    (Diff.mk "b2" true
      [("b2", [NodeDiffElement.mk "n1"
          [NodeAttributeDiffElement.mk "name" ["HAS_VALUE"]]]),
        ("main", [NodeDiffElement.mk "n1"
          [NodeAttributeDiffElement.mk "name" ["HAS_VALUE"]]])]
      [])
    rfl

/-- Looking a branch up after `addPath`: the target branch gains the
path, every other branch is untouched. -/
theorem lookupPaths_addPath (m : List (String × Finset ModPath)) (bn2 : String)
    (p : ModPath) (bn : String) :
    lookupPaths (addPath m bn2 p) bn
      = if bn = bn2 then insert p (lookupPaths m bn) else lookupPaths m bn := by
  induction m with
  | nil =>
    by_cases h : bn = bn2
    · simp [addPath, lookupPaths, h]
    · have h2 : bn2 ≠ bn := fun hh => h hh.symm
      simp [addPath, lookupPaths, h, h2]
  | cons hd tl ih =>
    obtain ⟨k, s⟩ := hd
    by_cases h1 : k = bn2
    · rw [show addPath ((k, s) :: tl) bn2 p = (k, insert p s) :: tl by
        simp [addPath, h1]]
      by_cases h2 : bn = bn2
      · have hk : k = bn := h1.trans h2.symm
        simp [lookupPaths, hk, h2]
      · have hk : k ≠ bn := fun hh => h2 (hh ▸ h1)
        simp [lookupPaths, hk, h2]
    · rw [show addPath ((k, s) :: tl) bn2 p = (k, s) :: addPath tl bn2 p by
        simp [addPath, h1]]
      by_cases h3 : k = bn
      · have hne : bn ≠ bn2 := fun hh => h1 (h3.trans hh)
        simp [lookupPaths, h3, hne]
      · simp [lookupPaths, h3, ih]

/-- Membership after folding one branch's path list into the map. -/
theorem mem_lookupPaths_foldl (ps : List ModPath) (bn2 : String)
    (m : List (String × Finset ModPath)) (bn : String) (q : ModPath) :
    q ∈ lookupPaths (ps.foldl (fun m p => addPath m bn2 p) m) bn
      ↔ (bn = bn2 ∧ q ∈ ps) ∨ q ∈ lookupPaths m bn := by
  induction ps generalizing m with
  | nil => simp
  | cons p rest ih =>
    rw [List.foldl_cons, ih, lookupPaths_addPath]
    by_cases h : bn = bn2
    · rw [if_pos h]
      simp only [h, eq_self_iff_true, true_and, Finset.mem_insert, List.mem_cons]
      tauto
    · rw [if_neg h]
      simp only [List.mem_cons, h, false_and, false_or]

/-- Membership after folding a list of `(branch, paths)` groups with the
`branch_only` skip. -/
theorem mem_lookupPaths_foldPathGroups (skip : String → Bool)
    (groups : List (String × List ModPath)) (m : List (String × Finset ModPath))
    (bn : String) (q : ModPath) :
    q ∈ lookupPaths (foldPathGroups skip groups m) bn
      ↔ (∃ g ∈ groups, g.1 = bn ∧ skip bn = false ∧ q ∈ g.2)
        ∨ q ∈ lookupPaths m bn := by
  induction groups generalizing m with
  | nil => simp [foldPathGroups]
  | cons g rest ih =>
    have hstep : foldPathGroups skip (g :: rest) m
        = foldPathGroups skip rest
            (if skip g.1 then m else g.2.foldl (fun m p => addPath m g.1 p) m) := rfl
    rw [hstep, ih]
    by_cases hs : skip g.1
    · rw [if_pos hs]
      constructor
      · rintro (⟨g2, hg2, hrest⟩ | hm)
        · exact Or.inl ⟨g2, List.mem_cons_of_mem g hg2, hrest⟩
        · exact Or.inr hm
      · rintro (⟨g2, hg2, hbn, hskip, hq⟩ | hm)
        · rcases List.mem_cons.mp hg2 with rfl | hg2b
          · exact absurd (hbn ▸ hs) (by simp [hskip])
          · exact Or.inl ⟨g2, hg2b, hbn, hskip, hq⟩
        · exact Or.inr hm
    · rw [if_neg hs, mem_lookupPaths_foldl]
      constructor
      · rintro (⟨g2, hg2, hbn, hskip, hq⟩ | (⟨hbn, hq⟩ | hm))
        · exact Or.inl ⟨g2, List.mem_cons_of_mem g hg2, hbn, hskip, hq⟩
        · refine Or.inl ⟨g, List.mem_cons_self g rest, hbn.symm, ?_, hq⟩
          rw [hbn]
          simpa using hs
        · exact Or.inr hm
      · rintro (⟨g2, hg2, hbn, hskip, hq⟩ | hm)
        · rcases List.mem_cons.mp hg2 with rfl | hg2b
          · exact Or.inr (Or.inl ⟨hbn.symm, hq⟩)
          · exact Or.inl ⟨g2, hg2b, hbn, hskip, hq⟩
        · exact Or.inr (Or.inr hm)

/-- Membership in one branch's node-path contribution. -/
theorem mem_nodePaths (data : List NodeDiffElement) (q : ModPath) :
    q ∈ nodePaths data
      ↔ ∃ node ∈ data, ∃ attr ∈ node.attributes, ∃ pt ∈ attr.properties,
          q = ("node", node.id, attr.name, pt) := by
  simp only [nodePaths, List.mem_flatMap, List.mem_map]
  constructor
  · rintro ⟨node, hn, attr, ha, pt, hp, rfl⟩
    exact ⟨node, hn, attr, ha, pt, hp, rfl⟩
  · rintro ⟨node, hn, attr, ha, pt, hp, rfl⟩
    exact ⟨node, hn, attr, ha, pt, hp, rfl⟩

/-- Membership in one branch's relationship-path contribution. -/
theorem mem_relPaths (data : List (String × List RelationshipDiffElement))
    (q : ModPath) :
    q ∈ relPaths data
      ↔ ∃ rg ∈ data, ∃ rel ∈ rg.2, ∃ pt ∈ rel.properties,
          q = ("relationships", rg.1, rel.id, pt) := by
  simp only [relPaths, List.mem_flatMap, List.mem_map]
  constructor
  · rintro ⟨rg, hg, rel, hr, pt, hp, rfl⟩
    exact ⟨rg, hg, rel, hr, pt, hp, rfl⟩
  · rintro ⟨rg, hg, rel, hr, pt, hp, rfl⟩
    exact ⟨rg, hg, rel, hr, pt, hp, rfl⟩

/-- C5 (amended): the modified-path set of a branch consists exactly of
the tuples `("node", node_uuid, attr_name, prop_kind)` for the changed
node-attribute properties and `("relationships", rel_name, rel_uuid,
prop_kind)` for the changed relationship properties — the first
component of a relationship path is the literal string
`"relationships"`, not `"rel"`. -/
theorem get_modified_paths_spec (d : Diff) (bn : String) (q : ModPath) :
    q ∈ lookupPaths d.get_modified_paths bn
      ↔ d.skipBranch bn = false
        ∧ ((∃ bd ∈ d.nodes, bd.1 = bn ∧ ∃ node ∈ bd.2, ∃ attr ∈ node.attributes,
              ∃ pt ∈ attr.properties, q = ("node", node.id, attr.name, pt))
          ∨ (∃ bd ∈ d.rels, bd.1 = bn ∧ ∃ rg ∈ bd.2, ∃ rel ∈ rg.2,
              ∃ pt ∈ rel.properties, q = ("relationships", rg.1, rel.id, pt))) := by
  unfold Diff.get_modified_paths
  rw [mem_lookupPaths_foldPathGroups, mem_lookupPaths_foldPathGroups]
  have hempty : q ∈ lookupPaths [] bn ↔ False := by
    simp [lookupPaths]
  rw [hempty, or_false]
  constructor
  · rintro (⟨g, hg, hbn, hsk, hq⟩ | ⟨g, hg, hbn, hsk, hq⟩)
    · rcases List.mem_map.mp hg with ⟨bd, hbd, rfl⟩
      refine ⟨hsk, Or.inr ?_⟩
      rcases (mem_relPaths bd.2 q).mp hq with ⟨rg, hrg, rel, hr, pt, hp, hq2⟩
      exact ⟨bd, hbd, hbn, rg, hrg, rel, hr, pt, hp, hq2⟩
    · rcases List.mem_map.mp hg with ⟨bd, hbd, rfl⟩
      refine ⟨hsk, Or.inl ?_⟩
      rcases (mem_nodePaths bd.2 q).mp hq with ⟨node, hn, attr, ha, pt, hp, hq2⟩
      exact ⟨bd, hbd, hbn, node, hn, attr, ha, pt, hp, hq2⟩
  · rintro ⟨hsk, (⟨bd, hbd, hbn, rest⟩ | ⟨bd, hbd, hbn, rest⟩)⟩
    · refine Or.inr ⟨(bd.1, nodePaths bd.2),
        List.mem_map_of_mem _ hbd, hbn, hsk, ?_⟩
      exact (mem_nodePaths bd.2 q).mpr rest
    · refine Or.inl ⟨(bd.1, relPaths bd.2),
        List.mem_map_of_mem _ hbd, hbn, hsk, ?_⟩
      exact (mem_relPaths bd.2 q).mpr rest

/-- C5 (counterexample): for a diff containing one changed relationship
property, the modified path stored for the branch starts with the
literal string `"relationships"`; the tuple starting with `"rel"` that
the claim describes is not in the set. -/
theorem modified_paths_rel_literal_counterexample :
    (("relationships", "owner", "r1", "IS_VISIBLE") : ModPath)
        ∈ lookupPaths
            (Diff.mk "b2" false []
              [("b2", [("owner", [RelationshipDiffElement.mk "r1" ["IS_VISIBLE"]])])]
            ).get_modified_paths "b2"
      ∧ (("rel", "owner", "r1", "IS_VISIBLE") : ModPath)
          ∉ lookupPaths
              (Diff.mk "b2" false []
                [("b2", [("owner", [RelationshipDiffElement.mk "r1" ["IS_VISIBLE"]])])]
              ).get_modified_paths "b2" := by
  decide

/-- `foldMax` returns its seed or an element of the list. -/
theorem foldMax_mem (init : RelQueryResult) (l : List RelQueryResult) :
    foldMax init l = init ∨ foldMax init l ∈ l := by
  induction l generalizing init with
  | nil => exact Or.inl rfl
  | cons x xs ih =>
    have hstep : foldMax init (x :: xs)
        = foldMax (if init.branch_score < x.branch_score then x else init) xs := rfl
    rw [hstep]
    by_cases h : init.branch_score < x.branch_score
    · rw [if_pos h]
      rcases ih x with h2 | h2
      · exact Or.inr (by rw [h2]; exact List.mem_cons_self x xs)
      · exact Or.inr (List.mem_cons_of_mem x h2)
    · rw [if_neg h]
      rcases ih init with h2 | h2
      · exact Or.inl h2
      · exact Or.inr (List.mem_cons_of_mem x h2)

/-- `foldMax` dominates its seed and every element of the list. -/
theorem foldMax_ge (init : RelQueryResult) (l : List RelQueryResult) :
    init.branch_score ≤ (foldMax init l).branch_score
      ∧ ∀ x ∈ l, x.branch_score ≤ (foldMax init l).branch_score := by
  induction l generalizing init with
  | nil => exact ⟨le_refl _, by simp⟩
  | cons x xs ih =>
    have hstep : foldMax init (x :: xs)
        = foldMax (if init.branch_score < x.branch_score then x else init) xs := rfl
    rw [hstep]
    by_cases h : init.branch_score < x.branch_score
    · rw [if_pos h]
      refine ⟨le_trans (le_of_lt h) (ih x).1, fun y hy => ?_⟩
      rcases List.mem_cons.mp hy with h3 | h3
      · rw [h3]
        exact (ih x).1
      · exact (ih x).2 y h3
    · rw [if_neg h]
      refine ⟨(ih init).1, fun y hy => ?_⟩
      rcases List.mem_cons.mp hy with h3 | h3
      · rw [h3]
        exact le_trans (not_lt.mp h) (ih init).1
      · exact (ih init).2 y h3

/-- Membership in `dedupFirst`: present in the list and not already
seen. -/
theorem mem_dedupFirst (seen : List String) (l : List String) (k : String) :
    k ∈ dedupFirst seen l ↔ k ∈ l ∧ k ∉ seen := by
  induction l generalizing seen with
  | nil => simp [dedupFirst]
  | cons a rest ih =>
    by_cases h : a ∈ seen
    · rw [show dedupFirst seen (a :: rest) = dedupFirst seen rest by
        simp [dedupFirst, h]]
      rw [ih]
      constructor
      · rintro ⟨hk, hns⟩
        exact ⟨List.mem_cons_of_mem a hk, hns⟩
      · rintro ⟨hk, hns⟩
        rcases List.mem_cons.mp hk with rfl | hk2
        · exact absurd h hns
        · exact ⟨hk2, hns⟩
    · rw [show dedupFirst seen (a :: rest) = a :: dedupFirst (a :: seen) rest by
        simp [dedupFirst, h]]
      simp only [List.mem_cons, ih]
      constructor
      · rintro (rfl | ⟨hk, hns⟩)
        · exact ⟨Or.inl rfl, h⟩
        · exact ⟨Or.inr hk, fun hh => hns (Or.inr hh)⟩
      · rintro ⟨(rfl | hk), hns⟩
        · exact Or.inl rfl
        · by_cases hka : k = a
          · exact Or.inl hka
          · refine Or.inr ⟨hk, ?_⟩
            intro hh
            rcases hh with rfl | hh2
            · exact hka rfl
            · exact hns hh2

/-- `dedupFirst` produces a list without duplicates. -/
theorem dedupFirst_nodup (seen : List String) (l : List String) :
    (dedupFirst seen l).Nodup := by
  induction l generalizing seen with
  | nil => simp [dedupFirst]
  | cons a rest ih =>
    by_cases h : a ∈ seen
    · rw [show dedupFirst seen (a :: rest) = dedupFirst seen rest by
        simp [dedupFirst, h]]
      exact ih seen
    · rw [show dedupFirst seen (a :: rest) = a :: dedupFirst (a :: seen) rest by
        simp [dedupFirst, h]]
      refine List.nodup_cons.mpr ⟨?_, ih (a :: seen)⟩
      intro hmem
      exact ((mem_dedupFirst (a :: seen) rest a).mp hmem).2 (List.mem_cons_self a seen)

/-- Mapping `dedupKey` over the per-key picks gives back the key list,
whenever every key occurs among the survivors. -/
theorem filterMap_pick_keys (survivors : List RelQueryResult) (ks : List String)
    (h : ∀ k ∈ ks, k ∈ survivors.map dedupKey) :
    ((ks.filterMap fun k =>
        pickFirstMax (survivors.filter fun r => dedupKey r == k)).map dedupKey) = ks := by
  induction ks with
  | nil => simp
  | cons k rest ih =>
    have hk : k ∈ survivors.map dedupKey := h k (List.mem_cons_self k rest)
    rcases List.mem_map.mp hk with ⟨r, hr, hkey⟩
    have hfil : r ∈ survivors.filter fun r => dedupKey r == k :=
      List.mem_filter.mpr ⟨hr, by simp [hkey]⟩
    obtain ⟨x, xs, hcons⟩ :
        ∃ x xs, (survivors.filter fun r => dedupKey r == k) = x :: xs := by
      cases hfc : survivors.filter fun r => dedupKey r == k with
      | nil => rw [hfc] at hfil; simp at hfil
      | cons x xs => exact ⟨x, xs, rfl⟩
    have hpick : pickFirstMax (survivors.filter fun r => dedupKey r == k)
        = some (foldMax x xs) := by rw [hcons]; rfl
    have hmem : foldMax x xs ∈ x :: xs := by
      rcases foldMax_mem x xs with h2 | h2
      · rw [h2]
        exact List.mem_cons_self x xs
      · exact List.mem_cons_of_mem x h2
    have hkeym : dedupKey (foldMax x xs) = k := by
      have hin : foldMax x xs ∈ survivors.filter fun r => dedupKey r == k :=
        hcons ▸ hmem
      simpa using (List.mem_filter.mp hin).2
    rw [List.filterMap_cons, hpick, List.map_cons, hkeym,
      ih fun k2 hk2 => h k2 (List.mem_cons_of_mem k hk2)]

/-- C9 (amended): `get_results` emits exactly one result per
`(branch, sorted endpoint uuids, rel name)` key — the keys of the output
are pairwise distinct and are the keys of the direction-deduplicated
input in first-occurrence order — and each emitted result is a surviving
input row whose branch score is maximal among the survivors sharing its
key.  Since the branch name is part of the key, rows on different
branches never compete: a parent-branch edge is emitted on its own and is
not displaced by a higher-scoring child-branch edge. -/
theorem get_results_dedup_spec (rs : List RelQueryResult) :
    ((DiffRelationshipQuery.get_results rs).map dedupKey).Nodup
      ∧ (DiffRelationshipQuery.get_results rs).map dedupKey
          = dedupFirst [] ((idsDedup [] rs).map dedupKey)
      ∧ ∀ r ∈ DiffRelationshipQuery.get_results rs,
          r ∈ idsDedup [] rs
            ∧ ∀ x ∈ idsDedup [] rs, dedupKey x = dedupKey r →
                x.branch_score ≤ r.branch_score := by
  have hkeys : (DiffRelationshipQuery.get_results rs).map dedupKey
      = dedupFirst [] ((idsDedup [] rs).map dedupKey) :=
    filterMap_pick_keys (idsDedup [] rs) (dedupFirst [] ((idsDedup [] rs).map dedupKey))
      fun k hk => ((mem_dedupFirst [] _ k).mp hk).1
  refine ⟨hkeys ▸ dedupFirst_nodup [] _, hkeys, fun r hr => ?_⟩
  rcases List.mem_filterMap.mp hr with ⟨k, -, hpick⟩
  obtain ⟨x, xs, hcons⟩ :
      ∃ x xs, ((idsDedup [] rs).filter fun r2 => dedupKey r2 == k) = x :: xs := by
    cases hfc : (idsDedup [] rs).filter fun r2 => dedupKey r2 == k with
    | nil => rw [hfc] at hpick; exact absurd hpick (by simp [pickFirstMax])
    | cons x xs => exact ⟨x, xs, rfl⟩
  rw [hcons] at hpick
  have hreq : r = foldMax x xs := by
    have := hpick
    simp only [pickFirstMax, Option.some.injEq] at this
    exact this.symm
  have hmem : r ∈ x :: xs := by
    rw [hreq]
    rcases foldMax_mem x xs with h2 | h2
    · rw [h2]
      exact List.mem_cons_self x xs
    · exact List.mem_cons_of_mem x h2
  have hinfil : r ∈ (idsDedup [] rs).filter fun r2 => dedupKey r2 == k :=
    hcons ▸ hmem
  have hkeyr : dedupKey r = k := by simpa using (List.mem_filter.mp hinfil).2
  refine ⟨List.mem_of_mem_filter hinfil, fun y hy hkeq => ?_⟩
  have hyfil : y ∈ (idsDedup [] rs).filter fun r2 => dedupKey r2 == k :=
    List.mem_filter.mpr ⟨hy, by simp [hkeq, hkeyr]⟩
  rw [hcons] at hyfil
  rcases List.mem_cons.mp hyfil with rfl | hy2
  · exact hreq ▸ (foldMax_ge y xs).1
  · exact hreq ▸ (foldMax_ge x xs).2 y hy2

/-- Witness for C9 (amended): the output keys on a concrete result list
are distinct. -/
theorem get_results_dedup_spec_witness :
    ((DiffRelationshipQuery.get_results
        [RelQueryResult.mk {1, 2, 3} "12345678aa" "12345678bb" "owner" "b2" 2,
          RelQueryResult.mk {4, 5, 6} "12345678aa" "12345678bb" "owner" "main" 1]
      ).map dedupKey).Nodup :=
  (get_results_dedup_spec
      [RelQueryResult.mk {1, 2, 3} "12345678aa" "12345678bb" "owner" "b2" 2,
        RelQueryResult.mk {4, 5, 6} "12345678aa" "12345678bb" "owner" "main" 1]).1

/-- C9 (counterexample): two rows describing the same logical
relationship (same endpoints, same relationship name), one on the child
branch `b2` with the higher branch score and one on the parent branch
`main`: `get_results` emits both — the child's edge does not displace the
parent's, because the branch name is part of the de-dup key. -/
theorem get_results_child_does_not_beat_parent :
    DiffRelationshipQuery.get_results
        [RelQueryResult.mk {1, 2, 3} "12345678aa" "12345678bb" "owner" "b2" 2,
          RelQueryResult.mk {4, 5, 6} "12345678aa" "12345678bb" "owner" "main" 1]
        = [RelQueryResult.mk {1, 2, 3} "12345678aa" "12345678bb" "owner" "b2" 2,
            RelQueryResult.mk {4, 5, 6} "12345678aa" "12345678bb" "owner" "main" 1]
      ∧ (RelQueryResult.mk {1, 2, 3} "12345678aa" "12345678bb" "owner" "b2" 2).sn_uuid
          = (RelQueryResult.mk {4, 5, 6} "12345678aa" "12345678bb" "owner" "main" 1).sn_uuid
      ∧ (RelQueryResult.mk {1, 2, 3} "12345678aa" "12345678bb" "owner" "b2" 2).rel_name
          = (RelQueryResult.mk {4, 5, 6} "12345678aa" "12345678bb" "owner" "main" 1).rel_name
      ∧ (RelQueryResult.mk {4, 5, 6} "12345678aa" "12345678bb" "owner" "main" 1).branch_score
          < (RelQueryResult.mk {1, 2, 3} "12345678aa" "12345678bb" "owner" "b2" 2).branch_score := by
  refine ⟨?_, rfl, rfl, by decide⟩
  decide

end Infrahub
